import Mathlib

/-!
Verification development for the jobster job-tracking backend
(`src/controllers/jobs.js`, `src/routes/jobs.js`).

The controller functions are shallowly embedded: the document store is a
`List Job`, Mongo query objects become record filters, the aggregation
pipelines become explicit grouping/sorting on lists, and JavaScript
peculiarities (`Number(x) || d` defaulting, string truthiness, the comma
expression in the update validation) are modelled explicitly.
-/

namespace Jobster

/-- Caller identity (`req.user.userId`). -/
abbrev UserId := String

/-- Creation instants. A real timestamp orders lexicographically by
(year, month, instant-within-month); the aggregation pipeline extracts
`$year` and `$month`, so those components are explicit. -/
structure Timestamp where
  year : Nat
  month : Nat
  sub : Nat
deriving DecidableEq

/-- Lexicographic order on timestamps: by year, then month, then the
within-month component. -/
def tsLe (a b : Timestamp) : Prop :=
  a.year < b.year ∨
    (a.year = b.year ∧ (a.month < b.month ∨ (a.month = b.month ∧ a.sub ≤ b.sub)))

instance : DecidableRel tsLe := fun a b => by
  unfold tsLe; infer_instance

/-- A stored job document (fields of the Job model used by the controllers). -/
structure Job where
  id : String
  createdBy : UserId
  company : String
  position : String
  status : String
  jobType : String
  jobLocation : String
  createdAt : Timestamp
deriving DecidableEq

/-- JavaScript truthiness of an optional string query parameter:
`undefined` and the empty string are falsy. -/
def jsTruthy : Option String → Bool
  | none => false
  | some s => !(s == "")

/-- JavaScript `!x` for an optional string: true for `undefined` and `''`. -/
def jsFalsy (s : Option String) : Bool := !(jsTruthy s)

/-- The Mongo query object built by `getAllJobs` (lines 11–25):
always `createdBy`, plus optional `position` regex and `status`/`jobType`
equality constraints. -/
structure QueryObject where
  createdBy : UserId
  position : Option String
  status : Option String
  jobType : Option String
deriving DecidableEq

/-- Builds the query object exactly as `getAllJobs` does:
`createdBy` unconditionally; `position` regex if `search` is truthy;
`status` equality if `status` is truthy and not the sentinel `'all'`;
likewise `jobType` (src/controllers/jobs.js lines 11–25). -/
def buildQueryObject (userId : UserId) (search status jobType : Option String) :
    QueryObject :=
  let q : QueryObject :=
    { createdBy := userId, position := none, status := none, jobType := none }
  let q := if jsTruthy search then { q with position := search } else q
  let q := if jsTruthy status && !(status == some "all") then
    { q with status := status } else q
  let q := if jsTruthy jobType && !(jobType == some "all") then
    { q with jobType := jobType } else q
  q

/-- Substring containment on character lists: the needle is a prefix of some
suffix of the haystack. -/
def containsSub (needle : List Char) : List Char → Bool
  | [] => needle.isEmpty
  | c :: rest => needle.isPrefixOf (c :: rest) || containsSub needle rest

/-- Case-insensitive substring containment. Models the document store's
evaluation of `{ $regex: search, $options: 'i' }` for a literal (escape-free)
search pattern, which is how the spec describes the search parameter:
both sides are lower-cased character-wise and compared for containment. -/
def ciContains (position search : String) : Bool :=
  containsSub (search.toList.map Char.toLower) (position.toList.map Char.toLower)

/-- Whether a job document matches a query object: conjunction of the
`createdBy` equality, the optional case-insensitive `position` regex, and the
optional `status` / `jobType` equalities. -/
def matchesQuery (q : QueryObject) (j : Job) : Bool :=
  decide (j.createdBy = q.createdBy) &&
  (match q.position with | none => true | some s => ciContains j.position s) &&
  (match q.status with | none => true | some s => decide (j.status = s)) &&
  (match q.jobType with | none => true | some s => decide (j.jobType = s))

/-- Sort relation for `sort('-createdAt')` (the `latest` branch):
descending creation time. -/
def latestRel (a b : Job) : Prop := tsLe b.createdAt a.createdAt

/-- Sort relation for `sort('createdAt')` (the `oldest` branch):
ascending creation time. -/
def oldestRel (a b : Job) : Prop := tsLe a.createdAt b.createdAt

/-- Lexicographic comparison of character lists by code point, modelling the
document store's bytewise string comparison. -/
def charListLe : List Char → List Char → Bool
  | [], _ => true
  | _ :: _, [] => false
  | a :: as, b :: bs =>
    if a.toNat < b.toNat then true
    else if b.toNat < a.toNat then false
    else charListLe as bs

/-- Sort relation for `sort('position')` (the `a-z` branch):
ascending position string. -/
def azRel (a b : Job) : Prop := charListLe a.position.toList b.position.toList = true

/-- Sort relation for `sort('-position')` (the `z-a` branch):
descending position string. -/
def zaRel (a b : Job) : Prop := charListLe b.position.toList a.position.toList = true

instance : DecidableRel latestRel := fun a b => by unfold latestRel; infer_instance
instance : DecidableRel oldestRel := fun a b => by unfold oldestRel; infer_instance
instance : DecidableRel azRel := fun a b => by unfold azRel; infer_instance
instance : DecidableRel zaRel := fun a b => by unfold zaRel; infer_instance

/-- The chain of `if (sort === …)` statements in `getAllJobs`
(src/controllers/jobs.js lines 31–42): each recognized literal sorts the
cursor by the corresponding key; an unrecognized or absent value leaves the
cursor unsorted. -/
def applySortChain (sort : Option String) (l : List Job) : List Job :=
  let result := l
  let result := if sort == some "latest" then List.insertionSort latestRel result else result
  let result := if sort == some "oldest" then List.insertionSort oldestRel result else result
  let result := if sort == some "a-z" then List.insertionSort azRel result else result
  let result := if sort == some "z-a" then List.insertionSort zaRel result else result
  result

/-- Digit-string accumulator for `jsNumber`. -/
def parseDigitsAux (acc : Nat) : List Char → Option Nat
  | [] => some acc
  | c :: cs => if c.isDigit then parseDigitsAux (acc * 10 + (c.toNat - 48)) cs else none

/-- Parses a non-empty all-digit character list; `none` otherwise. -/
def parseDigits : List Char → Option Nat
  | [] => none
  | c :: cs => parseDigitsAux 0 (c :: cs)

/-- The JavaScript `Number()` conversion on an optional string, restricted to
(optionally signed) decimal integer literals: `undefined` and non-numeric
strings give `none` (NaN), the empty or blank string gives 0, and a signed
digit string gives its value. Fractional, hexadecimal and exponent forms of
the full JavaScript grammar are outside the modelled domain. -/
def jsNumber : Option String → Option Int
  | none => none
  | some s =>
    let t := ((s.toList.dropWhile Char.isWhitespace).reverse.dropWhile
      Char.isWhitespace).reverse
    if t = [] then some 0
    else match t with
      | '-' :: rest => (parseDigits rest).map (fun n => -(n : Int))
      | '+' :: rest => (parseDigits rest).map (fun n => (n : Int))
      | cs => (parseDigits cs).map (fun n => (n : Int))

/-- JavaScript `v || d` where `v` is the result of `Number()`:
the default is taken exactly when `v` is NaN or 0. -/
def jsOr (v : Option Int) (d : Int) : Int :=
  match v with
  | none => d
  | some n => if n = 0 then d else n

/-- `const page = Number(req.query.page) || 1` (line 46). -/
def parsePage (s : Option String) : Int := jsOr (jsNumber s) 1

/-- `const limit = Number(req.query.limit) || 10` (line 47). -/
def parseLimit (s : Option String) : Int := jsOr (jsNumber s) 10

/-- `Math.ceil(totalJobs / limit)` on an integer count and integer limit.
The `limit = 0` case is unreachable in `getAllJobs` because `|| 10` never
yields 0. -/
def jsCeilDiv (n : Nat) (m : Int) : Int :=
  if 0 < m then ((n : Int) + m - 1) / m
  else if m < 0 then -((n : Int) / (-m))
  else 0

/-- The query parameters `getAllJobs` reads from `req.query`
(all optional strings). -/
structure JobQueryParams where
  search : Option String := none
  status : Option String := none
  jobType : Option String := none
  sort : Option String := none
  page : Option String := none
  limit : Option String := none
deriving DecidableEq

/-- The JSON payload of `getAllJobs`. -/
structure GetAllJobsResult where
  jobs : List Job
  totalJobs : Nat
  numOfPages : Int
deriving DecidableEq

/-- `getAllJobs` (src/controllers/jobs.js lines 7–63): build the query
object, filter, apply the sort chain, paginate with
`skip = (page - 1) * limit` and `limit`, and count the full filtered set for
`totalJobs` and `numOfPages`. -/
def getAllJobs (db : List Job) (userId : UserId) (req : JobQueryParams) :
    GetAllJobsResult :=
  let queryObject := buildQueryObject userId req.search req.status req.jobType
  let result := db.filter (matchesQuery queryObject)
  let result := applySortChain req.sort result
  let page := parsePage req.page
  let limit := parseLimit req.limit
  let skip := (page - 1) * limit
  let jobs := (result.drop skip.toNat).take limit.toNat
  let totalJobs := (db.filter (matchesQuery queryObject)).length
  let numOfPages := jsCeilDiv totalJobs limit
  { jobs := jobs, totalJobs := totalJobs, numOfPages := numOfPages }

/-- `getJob` (lines 64–79): `findOne({ _id: jobId, createdBy: userId })`,
`none` modelling the NotFound outcome. -/
def getJob (db : List Job) (userId : UserId) (jobId : String) : Option Job :=
  db.find? (fun j => decide (j.id = jobId) && decide (j.createdBy = userId))

/-- The request body of `createJob`; `createdBy` is whatever owner value the
client supplied (possibly spoofed). -/
structure CreateBody where
  company : String
  position : String
  status : String
  jobType : String
  jobLocation : String
  createdBy : UserId
deriving DecidableEq

/-- `createJob` (lines 80–87): `req.body.createdBy = req.user.userId`
overwrites any client-supplied owner; then `Job.create(req.body)` inserts the
document (with a store-generated id and timestamp) and returns it. -/
def createJob (db : List Job) (userId : UserId) (body : CreateBody)
    (newId : String) (now : Timestamp) : Job × List Job :=
  let body := { body with createdBy := userId }
  let job : Job :=
    { id := newId, createdBy := body.createdBy, company := body.company,
      position := body.position, status := body.status, jobType := body.jobType,
      jobLocation := body.jobLocation, createdAt := now }
  (job, db ++ [job])

/-- The request body of `updateJob`: the destructured fields, plus a possibly
client-supplied owner value forwarded to `findOneAndUpdate` via `req.body`. -/
structure UpdateBody where
  company : Option String := none
  position : Option String := none
  jobLocation : Option String := none
  status : Option String := none
  jobType : Option String := none
  createdBy : Option UserId := none
deriving DecidableEq

/-- The `if` condition of `updateJob` (lines 95–103). It is a JavaScript
comma expression: the first operand (the disjunction of the company/position
presence checks and the empty-string checks) is evaluated and its value
discarded; the value of the whole condition is the final operand
`jobType === ''`. -/
def updateValidationCondition (b : UpdateBody) : Bool :=
  let _discarded :=
    jsFalsy b.company || jsFalsy b.position ||
    (b.company == some "") || (b.position == some "") ||
    (b.jobLocation == some "") || (b.status == some "")
  b.jobType == some ""

/-- Modelled from the spec: the Job schema (`src/models/Job.js`) is not
among the source files, so the effect of `findOneAndUpdate` applying
`req.body` is taken from the spec's data model — each supplied field
overwrites the stored one, and the owner reference is "immutable after
creation", so `createdBy` is left unchanged whatever the body contains. -/
def applyUpdate (j : Job) (b : UpdateBody) : Job :=
  { j with
    company := b.company.getD j.company,
    position := b.position.getD j.position,
    jobLocation := b.jobLocation.getD j.jobLocation,
    status := b.status.getD j.status,
    jobType := b.jobType.getD j.jobType }

/-- The store's `findOneAndUpdate(pred, f)` on a list: transforms the first
matching document, returning the (new) document and the updated list. -/
def findOneAndUpdate (pred : Job → Bool) (f : Job → Job) :
    List Job → Option Job × List Job
  | [] => (none, [])
  | j :: rest =>
    if pred j then (some (f j), f j :: rest)
    else
      let r := findOneAndUpdate pred f rest
      (r.1, j :: r.2)

/-- The store's `findOneAndDelete(pred)` on a list: removes the first
matching document, returning it and the remaining list. -/
def findOneAndDelete (pred : Job → Bool) :
    List Job → Option Job × List Job
  | [] => (none, [])
  | j :: rest =>
    if pred j then (some j, rest)
    else
      let r := findOneAndDelete pred rest
      (r.1, j :: r.2)

/-- Error outcomes of the single-record operations. -/
inductive JobError where
  | badRequest (msg : String)
  | notFound (msg : String)
deriving DecidableEq

/-- `updateJob` (lines 88–120): the comma-expression validation, then
`findOneAndUpdate({ _id: jobId, createdBy: userId }, req.body, { new: true })`,
NotFound when no owned document matches. -/
def updateJob (db : List Job) (userId : UserId) (jobId : String)
    (body : UpdateBody) : Except JobError (Job × List Job) :=
  if updateValidationCondition body then
    .error (.badRequest ("Company or Position fields cannot be empty"))
  else
    let r := findOneAndUpdate
      (fun j => decide (j.id = jobId) && decide (j.createdBy = userId))
      (fun j => applyUpdate j body) db
    match r.1 with
    | none => .error (.notFound ("No job with the id " ++ jobId))
    | some j => .ok (j, r.2)

/-- `deleteJob` (lines 121–134):
`findOneAndDelete({ _id: jobId, createdBy: userId })`, NotFound when no owned
document matches. -/
def deleteJob (db : List Job) (userId : UserId) (jobId : String) :
    Except JobError (Job × List Job) :=
  let r := findOneAndDelete
    (fun j => decide (j.id = jobId) && decide (j.createdBy = userId)) db
  match r.1 with
  | none => .error (.notFound ("No job with the id " ++ jobId))
  | some j => .ok (j, r.2)

/-- The `$match: { createdBy: … }` stage of both aggregations in `showStats`
(lines 138–146 and 160–173): the caller's own documents. -/
def ownedJobs (db : List Job) (userId : UserId) : List Job :=
  db.filter (fun j => decide (j.createdBy = userId))

/-- The `$group: { _id: key, count: { $sum: 1 } }` stage: one tuple per
distinct key occurring in the list, carrying the number of documents with
that key. -/
def groupCounts {κ : Type} [DecidableEq κ] (key : Job → κ) (l : List Job) :
    List (κ × Nat) :=
  (l.map key).dedup.map
    (fun k => (k, (l.filter (fun j => decide (key j = k))).length))

/-- The lookup `stats[title] || 0` performed by the reduce/reshape step of
`showStats` (lines 148–158). -/
def lookupCount {κ : Type} [DecidableEq κ] (groups : List (κ × Nat)) (k : κ) : Nat :=
  match groups.find? (fun g => decide (g.1 = k)) with
  | none => 0
  | some g => g.2

/-- The fixed-shape status summary (lines 154–158). -/
structure DefaultStats where
  pending : Nat
  interview : Nat
  declined : Nat
deriving DecidableEq

/-- The status groups of the first aggregation pipeline in `showStats`. -/
def statusGroups (db : List Job) (userId : UserId) : List (String × Nat) :=
  groupCounts Job.status (ownedJobs db userId)

/-- The reshaped status summary: `stats.pending || 0` etc. (lines 148–158). -/
def defaultStatsOf (db : List Job) (userId : UserId) : DefaultStats :=
  let stats := statusGroups db userId
  { pending := lookupCount stats "pending",
    interview := lookupCount stats "interview",
    declined := lookupCount stats "declined" }

/-- The `_id: { year: { $year: … }, month: { $month: … } }` grouping key of
the second aggregation pipeline. -/
def monthKey (j : Job) : Nat × Nat := (j.createdAt.year, j.createdAt.month)

/-- The `$sort: { '_id.year': -1, '_id.month': -1 }` ordering on month
groups: year descending, then month descending. -/
def monthDescRel (g h : (Nat × Nat) × Nat) : Prop :=
  h.1.1 < g.1.1 ∨ (h.1.1 = g.1.1 ∧ h.1.2 ≤ g.1.2)

instance : DecidableRel monthDescRel := fun g h => by
  unfold monthDescRel; infer_instance

/-- The month groups of the second aggregation pipeline. -/
def monthGroups (db : List Job) (userId : UserId) : List ((Nat × Nat) × Nat) :=
  groupCounts monthKey (ownedJobs db userId)

/-- Month groups after the descending `$sort` stage. -/
def monthGroupsSorted (db : List Job) (userId : UserId) : List ((Nat × Nat) × Nat) :=
  List.insertionSort monthDescRel (monthGroups db userId)

/-- Month groups after the `$limit: 6` stage: the six most recent. -/
def monthlyTop (db : List Job) (userId : UserId) : List ((Nat × Nat) × Nat) :=
  (monthGroupsSorted db userId).take 6

/-- Three-letter month names used by the `'MMM Y'` format. -/
def monthName (m : Nat) : String :=
  match m with
  | 1 => "Jan" | 2 => "Feb" | 3 => "Mar" | 4 => "Apr"
  | 5 => "May" | 6 => "Jun" | 7 => "Jul" | 8 => "Aug"
  | 9 => "Sep" | 10 => "Oct" | 11 => "Nov" | 12 => "Dec"
  | _ => ""

/-- The `'MMM Y'` label built from a group's month number (1–12) and year
(lines 181–184), modelling the date library's formatting of an instant whose
month and year fields were set to the group's values. -/
def monthLabel (month year : Nat) : String :=
  monthName month ++ " " ++ toString year

/-- One element of the `monthlyApplications` series. -/
structure MonthlyEntry where
  date : String
  count : Nat
deriving DecidableEq

/-- The relabelling step of the monthly series (lines 174–186). -/
def mkMonthlyEntry (g : (Nat × Nat) × Nat) : MonthlyEntry :=
  { date := monthLabel g.1.2 g.1.1, count := g.2 }

/-- The JSON payload of `showStats`. -/
structure ShowStatsResult where
  defaultStats : DefaultStats
  monthlyApplications : List MonthlyEntry
deriving DecidableEq

/-- `showStats` (lines 136–190): the reshaped status counts, and the month
groups sorted descending, truncated to 6, relabelled and reversed. -/
def showStats (db : List Job) (userId : UserId) : ShowStatsResult :=
  { defaultStats := defaultStatsOf db userId,
    monthlyApplications := ((monthlyTop db userId).map mkMonthlyEntry).reverse }

/-- A sequence of `updateJob` requests (caller, job id, body) applied to the
store in order; a request that errors leaves the store unchanged. -/
def runUpdates (db : List Job) : List (UserId × String × UpdateBody) → List Job
  | [] => db
  | (u, idn, b) :: rest =>
    runUpdates
      (match updateJob db u idn b with
       | .ok p => p.2
       | .error _ => db) rest

/-! ### Concrete fixtures used by witnesses and counterexamples -/

/-- A sample job fixture. -/
def mkSample (idn : String) (owner : UserId) (pos st : String)
    (y m s : Nat) : Job :=
  { id := idn, createdBy := owner, company := "Acme", position := pos,
    status := st, jobType := "full-time", jobLocation := "town",
    createdAt := { year := y, month := m, sub := s } }

/-- Three jobs owned by caller `u` with positions Engineer, Analyst,
Director (the sort scenario of the spec). -/
def scenarioDb : List Job :=
  [ mkSample "1" "u" "Engineer" "pending" 2024 1 0,
    mkSample "2" "u" "Analyst" "pending" 2024 2 0,
    mkSample "3" "u" "Director" "interview" 2024 3 0 ]

/-- Twelve jobs owned by caller A (the pagination scenario of the spec). -/
def twelveDb : List Job :=
  (List.range 12).map (fun i => mkSample (toString i) "A" "P" "pending" 2024 1 i)

/-- Seven jobs owned by caller A in seven distinct months. -/
def sevenMonthDb : List Job :=
  (List.range 7).map (fun i => mkSample (toString i) "A" "P" "pending" 2023 (i + 1) 0)

/-! ### Helper lemmas -/

theorem perm_ite_sort (r : Job → Job → Prop) [DecidableRel r] (c : Prop)
    [Decidable c] (l : List Job) :
    (if c then List.insertionSort r l else l).Perm l := by
  split
  · exact List.perm_insertionSort r l
  · exact List.Perm.refl l

theorem applySortChain_perm (s : Option String) (l : List Job) :
    (applySortChain s l).Perm l := by
  unfold applySortChain
  exact (perm_ite_sort zaRel _ _).trans ((perm_ite_sort azRel _ _).trans
    ((perm_ite_sort oldestRel _ _).trans (perm_ite_sort latestRel _ _)))

theorem applySortChain_mem {s : Option String} {l : List Job} {x : Job} :
    x ∈ applySortChain s l ↔ x ∈ l :=
  (applySortChain_perm s l).mem_iff

theorem applySortChain_length (s : Option String) (l : List Job) :
    (applySortChain s l).length = l.length :=
  (applySortChain_perm s l).length_eq

theorem buildQueryObject_createdBy (u : UserId) (se st jt : Option String) :
    (buildQueryObject u se st jt).createdBy = u := by
  unfold buildQueryObject
  dsimp only
  split_ifs <;> rfl

theorem matchesQuery_createdBy {q : QueryObject} {j : Job}
    (h : matchesQuery q j = true) : j.createdBy = q.createdBy := by
  unfold matchesQuery at h
  simp only [Bool.and_eq_true, decide_eq_true_eq] at h
  exact h.1.1.1

theorem mem_getAllJobs {db : List Job} {u : UserId} {q : JobQueryParams} {x : Job}
    (h : x ∈ (getAllJobs db u q).jobs) :
    x ∈ db ∧ matchesQuery (buildQueryObject u q.search q.status q.jobType) x = true := by
  unfold getAllJobs at h
  dsimp only at h
  have h1 := (List.take_sublist _ _).subset h
  have h2 := (List.drop_sublist _ _).subset h1
  have h3 := applySortChain_mem.mp h2
  exact List.mem_filter.mp h3

theorem findOneAndUpdate_found {pred : Job → Bool} {f : Job → Job} :
    ∀ {db : List Job} {j : Job}, (findOneAndUpdate pred f db).1 = some j →
      ∃ x, pred x = true ∧ j = f x := by
  intro db
  induction db with
  | nil => intro j h; simp [findOneAndUpdate] at h
  | cons a rest ih =>
    intro j h
    unfold findOneAndUpdate at h
    by_cases hp : pred a = true
    · simp only [hp, if_true] at h
      exact ⟨a, hp, (Option.some.injEq _ _ ▸ h).symm⟩
    · simp only [hp, if_false] at h
      exact ih h

theorem findOneAndUpdate_untouched {pred : Job → Bool} {f : Job → Job} :
    ∀ {db : List Job} {y : Job}, y ∈ db → pred y = false →
      y ∈ (findOneAndUpdate pred f db).2 := by
  intro db
  induction db with
  | nil => intro y h _; cases h
  | cons a rest ih =>
    intro y hy hpy
    unfold findOneAndUpdate
    by_cases hp : pred a = true
    · simp only [hp, if_true]
      rcases List.mem_cons.mp hy with rfl | hmem
      · exact absurd hp (by simp [hpy])
      · exact List.mem_cons_of_mem _ hmem
    · simp only [hp, if_false]
      rcases List.mem_cons.mp hy with rfl | hmem
      · exact List.mem_cons_self _ _
      · exact List.mem_cons_of_mem _ (ih hmem hpy)

theorem findOneAndUpdate_map {β : Type} {pred : Job → Bool} {f : Job → Job}
    {g : Job → β} (hg : ∀ x, g (f x) = g x) :
    ∀ db : List Job, ((findOneAndUpdate pred f db).2).map g = db.map g := by
  intro db
  induction db with
  | nil => rfl
  | cons a rest ih =>
    unfold findOneAndUpdate
    by_cases hp : pred a = true
    · simp [hp, hg]
    · simp [hp, ih]

theorem findOneAndDelete_found {pred : Job → Bool} :
    ∀ {db : List Job} {j : Job}, (findOneAndDelete pred db).1 = some j →
      pred j = true := by
  intro db
  induction db with
  | nil => intro j h; simp [findOneAndDelete] at h
  | cons a rest ih =>
    intro j h
    unfold findOneAndDelete at h
    by_cases hp : pred a = true
    · simp only [hp, if_true] at h
      exact (Option.some.injEq _ _ ▸ h) ▸ hp
    · simp only [hp, if_false] at h
      exact ih h

theorem findOneAndDelete_untouched {pred : Job → Bool} :
    ∀ {db : List Job} {y : Job}, y ∈ db → pred y = false →
      y ∈ (findOneAndDelete pred db).2 := by
  intro db
  induction db with
  | nil => intro y h _; cases h
  | cons a rest ih =>
    intro y hy hpy
    unfold findOneAndDelete
    by_cases hp : pred a = true
    · simp only [hp, if_true]
      rcases List.mem_cons.mp hy with rfl | hmem
      · exact absurd hp (by simp [hpy])
      · exact hmem
    · simp only [hp, if_false]
      rcases List.mem_cons.mp hy with rfl | hmem
      · exact List.mem_cons_self _ _
      · exact List.mem_cons_of_mem _ (ih hmem hpy)

theorem updateJob_ok {db db' : List Job} {u : UserId} {idn : String}
    {body : UpdateBody} {j : Job}
    (h : updateJob db u idn body = .ok (j, db')) :
    j.createdBy = u ∧
    db'.map (fun x => (x.id, x.createdBy)) = db.map (fun x => (x.id, x.createdBy)) ∧
    (∀ y ∈ db, y.createdBy ≠ u → y ∈ db') := by
  unfold updateJob at h
  split at h
  · exact absurd h (by simp)
  · dsimp only at h
    split at h
    · exact absurd h (by simp)
    · rename_i j0 heq
      simp only [Except.ok.injEq, Prod.mk.injEq] at h
      obtain ⟨rfl, rfl⟩ := h
      obtain ⟨x, hpx, rfl⟩ := findOneAndUpdate_found heq
      simp only [Bool.and_eq_true, decide_eq_true_eq] at hpx
      refine ⟨hpx.2, ?_, ?_⟩
      · refine findOneAndUpdate_map ?_ db
        intro x
        rfl
      · intro y hy hyu
        refine findOneAndUpdate_untouched hy ?_
        simp [hyu]

theorem deleteJob_ok {db db' : List Job} {u : UserId} {idn : String} {j : Job}
    (h : deleteJob db u idn = .ok (j, db')) :
    j.createdBy = u ∧ (∀ y ∈ db, y.createdBy ≠ u → y ∈ db') := by
  unfold deleteJob at h
  dsimp only at h
  split at h
  · exact absurd h (by simp)
  · rename_i j0 heq
    simp only [Except.ok.injEq, Prod.mk.injEq] at h
    obtain ⟨rfl, rfl⟩ := h
    have hp := findOneAndDelete_found heq
    simp only [Bool.and_eq_true, decide_eq_true_eq] at hp
    refine ⟨hp.2, ?_⟩
    intro y hy hyu
    refine findOneAndDelete_untouched hy ?_
    simp [hyu]

theorem ownedJobs_idem (db : List Job) (u : UserId) :
    ownedJobs (ownedJobs db u) u = ownedJobs db u := by
  simp [ownedJobs, List.filter_filter]

theorem showStats_owner_scope (db : List Job) (u : UserId) :
    showStats db u = showStats (ownedJobs db u) u := by
  simp [showStats, defaultStatsOf, statusGroups, monthlyTop, monthGroupsSorted,
    monthGroups, ownedJobs_idem]

/-! ### Claim theorems -/

/-- Claim C1: every operation constrains its query to the caller's own
records. For callers A ≠ B: jobs returned by A's list all belong to A (so
none belong to B); a job returned by A's read-one belongs to A; a successful
update or delete by A returns one of A's jobs and leaves every job not owned
by A (in particular B's) in the store; A's stats depend only on A's own
records; and ownership is a query constraint — the query predicate built for
A evaluates to false on any job not owned by A, before any result is
fetched. -/
theorem C1_tenant_isolation :
    ∀ (db : List Job) (A B : UserId), A ≠ B →
      (∀ (q : JobQueryParams) (x : Job), x ∈ (getAllJobs db A q).jobs →
        x.createdBy = A ∧ x.createdBy ≠ B) ∧
      (∀ (jobId : String) (x : Job), getJob db A jobId = some x →
        x.createdBy = A ∧ x.createdBy ≠ B) ∧
      (∀ (jobId : String) (body : UpdateBody) (x : Job) (db' : List Job),
        updateJob db A jobId body = .ok (x, db') →
          x.createdBy = A ∧ ∀ y ∈ db, y.createdBy = B → y ∈ db') ∧
      (∀ (jobId : String) (x : Job) (db' : List Job),
        deleteJob db A jobId = .ok (x, db') →
          x.createdBy = A ∧ ∀ y ∈ db, y.createdBy = B → y ∈ db') ∧
      (showStats db A = showStats (ownedJobs db A) A) ∧
      (∀ (se st jt : Option String) (x : Job), x.createdBy ≠ A →
        matchesQuery (buildQueryObject A se st jt) x = false) := by
  intro db A B hAB
  refine ⟨?_, ?_, ?_, ?_, showStats_owner_scope db A, ?_⟩
  · intro q x hx
    have hm := (mem_getAllJobs hx).2
    have := matchesQuery_createdBy hm
    rw [buildQueryObject_createdBy] at this
    exact ⟨this, this ▸ hAB⟩
  · intro jobId x hx
    have hp := List.find?_some hx
    simp only [Bool.and_eq_true, decide_eq_true_eq] at hp
    exact ⟨hp.2, hp.2 ▸ hAB⟩
  · intro jobId body x db' h
    obtain ⟨hj, _, huntouched⟩ := updateJob_ok h
    exact ⟨hj, fun y hy hyB => huntouched y hy (fun hc => hAB (hc ▸ hyB))⟩
  · intro jobId x db' h
    obtain ⟨hj, huntouched⟩ := deleteJob_ok h
    exact ⟨hj, fun y hy hyB => huntouched y hy (fun hc => hAB (hc ▸ hyB))⟩
  · intro se st jt x hx
    unfold matchesQuery
    rw [buildQueryObject_createdBy]
    simp [hx]

/-- Witness for C1 at a concrete store: the job returned by caller u's list
over `scenarioDb` is owned by u and not by the other caller v. -/
theorem C1_tenant_isolation_witness :
    (mkSample "1" "u" "Engineer" "pending" 2024 1 0).createdBy = "u" ∧
    (mkSample "1" "u" "Engineer" "pending" 2024 1 0).createdBy ≠ "v" :=
  (C1_tenant_isolation scenarioDb "u" "v" (by decide)).1 {}
    (mkSample "1" "u" "Engineer" "pending" 2024 1 0) (by decide)

/-- Claim C2 (code bug): the update validation is a JavaScript comma
expression, so its value is just `jobType === ''` — it does NOT reject empty
company/position. A body with empty company and position but non-empty
jobType passes validation and the update succeeds, while a body with valid
company/position and empty jobType is rejected with the
company/position error message, contradicting both the message and the
spec's contract. -/
theorem C2_comma_expression_only_checks_jobType :
    updateValidationCondition
      { company := some "", position := some "", jobType := some "full-time" } = false ∧
    (∃ p, updateJob scenarioDb "u" "1"
      { company := some "", position := some "", jobType := some "full-time" } = .ok p) ∧
    updateValidationCondition
      { company := some "Acme", position := some "Engineer", jobType := some "" } = true ∧
    updateJob scenarioDb "u" "1"
      { company := some "Acme", position := some "Engineer", jobType := some "" } =
      .error (.badRequest ("Company or Position fields cannot be empty")) :=
  ⟨rfl, ⟨_, rfl⟩, rfl, rfl⟩

/-- Claim C3: the stored owner reference always equals the creating caller
and never changes. `createJob` stores the caller identity whatever
`createdBy` the body carried, and any sequence of `updateJob` calls
(whatever their bodies) leaves every record's id and `createdBy` unchanged. -/
theorem C3_owner_immutable :
    (∀ (db : List Job) (u : UserId) (body : CreateBody) (newId : String)
      (now : Timestamp), (createJob db u body newId now).1.createdBy = u) ∧
    (∀ (db : List Job) (reqs : List (UserId × String × UpdateBody)),
      (runUpdates db reqs).map (fun x => (x.id, x.createdBy)) =
        db.map (fun x => (x.id, x.createdBy))) := by
  constructor
  · intro db u body newId now
    rfl
  · intro db reqs
    induction reqs generalizing db with
    | nil => rfl
    | cons r rest ih =>
      obtain ⟨u, idn, b⟩ := r
      unfold runUpdates
      cases h : updateJob db u idn b with
      | ok p =>
        dsimp only
        obtain ⟨x, db'⟩ := p
        exact (ih db').trans (updateJob_ok h).2.1
      | error e =>
        dsimp only
        exact ih db

/-- Counterexample to claim C7 as stated: a status parameter that is present
as the empty string and is not the sentinel `'all'` nevertheless adds no
equality filter (JavaScript truthiness treats `''` as absent), and the list
result still contains a job whose status is not the empty string. -/
theorem C7_counterexample_empty_status :
    (buildQueryObject "u" none (some "") none).status = none ∧
    (getAllJobs scenarioDb "u" { status := some "" }).jobs = scenarioDb ∧
    (∀ x ∈ scenarioDb, x.status ≠ "") := by
  refine ⟨rfl, by decide, by decide⟩

/-- Claim C7 (amended): the status equality filter is added iff the status
parameter is present as a non-empty string other than the sentinel `'all'`
(an empty string is treated like absence), and likewise for jobType;
consequently listing with status `'all'` (or jobType `'all'`) returns exactly
the same result as listing with that parameter absent. -/
theorem C7_status_sentinel_amended :
    ∀ (u : UserId) (se st jt : Option String) (s : String),
      ((buildQueryObject u se st jt).status = some s ↔
        (st = some s ∧ s ≠ "" ∧ s ≠ "all")) ∧
      ((buildQueryObject u se st jt).jobType = some s ↔
        (jt = some s ∧ s ≠ "" ∧ s ≠ "all")) ∧
      (∀ (db : List Job) (q : JobQueryParams),
        getAllJobs db u { q with status := some "all" } =
          getAllJobs db u { q with status := none } ∧
        getAllJobs db u { q with jobType := some "all" } =
          getAllJobs db u { q with jobType := none }) := by
  intro u se st jt s
  refine ⟨?_, ?_, ?_⟩
  · unfold buildQueryObject
    dsimp only
    split_ifs with h1 h2 h3 <;>
      simp_all [jsTruthy] <;>
      rcases st with _ | v <;>
      simp_all <;>
      rintro rfl <;>
      simp_all
  · unfold buildQueryObject
    dsimp only
    split_ifs with h1 h2 h3 <;>
      simp_all [jsTruthy] <;>
      rcases jt with _ | v <;>
      simp_all <;>
      rintro rfl <;>
      simp_all
  · intro db q
    constructor <;> rfl

/-- Witness for C7 at a concrete input: a present, non-empty, non-sentinel
status value does get an equality filter. -/
theorem C7_status_sentinel_amended_witness :
    (buildQueryObject "u" none (some "pending") none).status = some "pending" :=
  (C7_status_sentinel_amended "u" none (some "pending") none "pending").1.mpr
    ⟨rfl, by decide, by decide⟩

theorem find?_eq_self {κ : Type} [DecidableEq κ] (k : κ) :
    ∀ ks : List κ, ks.find? (fun x => decide (x = k)) =
      if k ∈ ks then some k else none := by
  intro ks
  induction ks with
  | nil => rfl
  | cons a t ih =>
    by_cases ha : a = k
    · subst ha
      simp [List.find?_cons]
    · have hda : decide (a = k) = false := by simp [ha]
      have hka : ¬k = a := fun h => ha h.symm
      rw [List.find?_cons, hda, ih]
      by_cases hk : k ∈ t
      · simp [hk, List.mem_cons]
      · simp [hk, List.mem_cons, hka]

theorem lookupCount_groupCounts {κ : Type} [DecidableEq κ] (key : Job → κ)
    (l : List Job) (k : κ) :
    lookupCount (groupCounts key l) k =
      (l.filter (fun j => decide (key j = k))).length := by
  unfold lookupCount groupCounts
  rw [List.find?_map]
  have hcomp : ((fun g : κ × Nat => decide (g.1 = k)) ∘
      (fun x => (x, (l.filter (fun j => decide (key j = x))).length))) =
      fun x => decide (x = k) := rfl
  rw [hcomp, find?_eq_self]
  by_cases hk : k ∈ (l.map key).dedup
  · simp [hk]
  · have hk2 : k ∉ l.map key := fun h => hk (List.mem_dedup.mpr h)
    have hnil : l.filter (fun j => decide (key j = k)) = [] := by
      rw [List.filter_eq_nil_iff]
      intro a ha hka
      exact hk2 (List.mem_map.mpr ⟨a, ha, by simpa using hka⟩)
    simp [hk, hnil]

theorem filter_three_le (p q r : Job → Bool)
    (hpq : ∀ a, ¬(p a = true ∧ q a = true))
    (hpr : ∀ a, ¬(p a = true ∧ r a = true))
    (hqr : ∀ a, ¬(q a = true ∧ r a = true)) :
    ∀ l : List Job,
      (l.filter p).length + (l.filter q).length + (l.filter r).length ≤ l.length := by
  intro l
  induction l with
  | nil => simp
  | cons a t ih =>
    by_cases hp : p a = true <;> by_cases hq : q a = true <;> by_cases hr : r a = true
    all_goals first
      | exact absurd (And.intro hp hq) (hpq a)
      | exact absurd (And.intro hp hr) (hpr a)
      | exact absurd (And.intro hq hr) (hqr a)
      | (simp [List.filter_cons, hp, hq, hr]
         omega)

/-- Claim C5: `showStats` returns `defaultStats` with exactly the three keys
pending/interview/declined, each equal to the number of the caller's records
whose status is byte-equal to that key (0 when there are none), and the sum
of the three values is at most the caller's total record count (records with
any other status are silently excluded). -/
theorem C5_default_stats :
    ∀ (db : List Job) (u : UserId),
      (showStats db u).defaultStats.pending =
        ((ownedJobs db u).filter (fun j => decide (j.status = "pending"))).length ∧
      (showStats db u).defaultStats.interview =
        ((ownedJobs db u).filter (fun j => decide (j.status = "interview"))).length ∧
      (showStats db u).defaultStats.declined =
        ((ownedJobs db u).filter (fun j => decide (j.status = "declined"))).length ∧
      (showStats db u).defaultStats.pending + (showStats db u).defaultStats.interview +
          (showStats db u).defaultStats.declined ≤ (ownedJobs db u).length := by
  intro db u
  have hp := lookupCount_groupCounts Job.status (ownedJobs db u) "pending"
  have hi := lookupCount_groupCounts Job.status (ownedJobs db u) "interview"
  have hd := lookupCount_groupCounts Job.status (ownedJobs db u) "declined"
  have h1 : (showStats db u).defaultStats.pending =
      ((ownedJobs db u).filter (fun j => decide (j.status = "pending"))).length := hp
  have h2 : (showStats db u).defaultStats.interview =
      ((ownedJobs db u).filter (fun j => decide (j.status = "interview"))).length := hi
  have h3 : (showStats db u).defaultStats.declined =
      ((ownedJobs db u).filter (fun j => decide (j.status = "declined"))).length := hd
  refine ⟨h1, h2, h3, ?_⟩
  rw [h1, h2, h3]
  refine filter_three_le _ _ _ ?_ ?_ ?_ (ownedJobs db u) <;>
    intro a ha <;>
    rw [decide_eq_true_eq, decide_eq_true_eq] at ha <;>
    exact absurd (ha.1 ▸ ha.2) (by decide)

/-- Counterexample to claim C4 as stated: the claim says a page parameter
that is non-positive after parsing defaults to 1, but `Number('-2') || 1`
keeps `-2` (only NaN and 0 are falsy), so the computed page is `-2`, which is
neither positive nor the default. -/
theorem C4_counterexample_negative_page :
    parsePage (some "-2") = -2 ∧ parsePage (some "-2") ≤ 0 ∧
      parsePage (some "-2") ≠ 1 := by
  refine ⟨by decide, by decide, by decide⟩

/-- Claim C4 (amended): page defaults to 1 exactly when `Number(page)` is NaN
(absent or non-numeric) or 0 — a nonzero parsed value, including a negative
one, is kept as is — and likewise limit with default 10. For positive parsed
page and limit, the returned jobs are the filtered, sorted results after
skipping `(page - 1) * limit` and taking at most `limit`; `totalJobs` is the
count of all records matching the same filter with no skip/limit; and
`numOfPages` is the ceiling of `totalJobs / limit`. -/
theorem C4_pagination_amended :
    ∀ (db : List Job) (u : UserId) (q : JobQueryParams),
      (jsNumber q.page = none ∨ jsNumber q.page = some 0 → parsePage q.page = 1) ∧
      (∀ v : Int, jsNumber q.page = some v → v ≠ 0 → parsePage q.page = v) ∧
      (jsNumber q.limit = none ∨ jsNumber q.limit = some 0 → parseLimit q.limit = 10) ∧
      (∀ v : Int, jsNumber q.limit = some v → v ≠ 0 → parseLimit q.limit = v) ∧
      (∀ p l : Nat, parsePage q.page = (p : Int) → parseLimit q.limit = (l : Int) →
        1 ≤ p → 1 ≤ l →
        (getAllJobs db u q).jobs =
          ((applySortChain q.sort (db.filter (matchesQuery
            (buildQueryObject u q.search q.status q.jobType)))).drop ((p - 1) * l)).take l ∧
        (getAllJobs db u q).totalJobs =
          (db.filter (matchesQuery (buildQueryObject u q.search q.status q.jobType))).length ∧
        (getAllJobs db u q).numOfPages =
          (((getAllJobs db u q).totalJobs ⌈/⌉ l : Nat) : Int)) := by
  intro db u q
  refine ⟨?_, ?_, ?_, ?_, ?_⟩
  · rintro (h | h) <;> simp [parsePage, jsOr, h]
  · intro v hv hv0
    simp [parsePage, jsOr, hv, hv0]
  · rintro (h | h) <;> simp [parseLimit, jsOr, h]
  · intro v hv hv0
    simp [parseLimit, jsOr, hv, hv0]
  · intro p l hp hl hp1 hl1
    have hlcast : ((l : Int)).toNat = l := Int.toNat_natCast l
    have hskipeq : ((p : Int) - 1) * (l : Int) = (((p - 1) * l : Nat) : Int) := by
      push_cast [Nat.cast_sub hp1]
      ring
    have hskip : (((p : Int) - 1) * (l : Int)).toNat = (p - 1) * l := by
      rw [hskipeq, Int.toNat_natCast]
    have hl0 : (0 : Int) < (l : Int) := by exact_mod_cast hl1
    unfold getAllJobs
    dsimp only
    rw [hp, hl, hskip, hlcast]
    refine ⟨rfl, rfl, ?_⟩
    unfold jsCeilDiv
    rw [if_pos hl0]
    have hcast : ((db.filter (matchesQuery (buildQueryObject u q.search q.status
        q.jobType))).length : Int) + (l : Int) - 1 =
        (((db.filter (matchesQuery (buildQueryObject u q.search q.status
          q.jobType))).length + l - 1 : Nat) : Int) := by
      push_cast [Nat.cast_sub (le_trans hl1 (Nat.le_add_left _ _))]
      ring
    rw [hcast, ← Int.ofNat_ediv, Nat.ceilDiv_eq_add_pred_div]

/-- Witness for C4 at the spec's pagination scenario: page 2, limit 5 over
twelve matching records returns the records after skipping 5. -/
theorem C4_pagination_amended_witness :
    (getAllJobs twelveDb "A" { page := some "2", limit := some "5" }).jobs =
      ((applySortChain none (twelveDb.filter (matchesQuery
        (buildQueryObject "A" none none none)))).drop ((2 - 1) * 5)).take 5 :=
  ((C4_pagination_amended twelveDb "A" { page := some "2", limit := some "5" }).2.2.2.2
    2 5 (by decide) (by decide) (by decide) (by decide)).1

/-- Claim C10: when the computed skip `(page - 1) * limit` is at least the
number of matching records, `getAllJobs` still succeeds (it is a total
function) with an empty jobs array, while `totalJobs` and `numOfPages` are
still computed from the full filtered set; a page beyond the last is never an
error. -/
theorem C10_page_beyond_last :
    ∀ (db : List Job) (u : UserId) (q : JobQueryParams) (p l : Nat),
      parsePage q.page = (p : Int) → parseLimit q.limit = (l : Int) →
      (db.filter (matchesQuery (buildQueryObject u q.search q.status
        q.jobType))).length ≤ (p - 1) * l →
      (getAllJobs db u q).jobs = [] ∧
      (getAllJobs db u q).totalJobs =
        (db.filter (matchesQuery (buildQueryObject u q.search q.status
          q.jobType))).length ∧
      (getAllJobs db u q).numOfPages =
        jsCeilDiv (db.filter (matchesQuery (buildQueryObject u q.search q.status
          q.jobType))).length (l : Int) := by
  intro db u q p l hp hl hlen
  unfold getAllJobs
  dsimp only
  rw [hp, hl]
  refine ⟨?_, rfl, rfl⟩
  cases p with
  | zero =>
    simp only [Nat.zero_sub, Nat.zero_mul] at hlen
    have hnil : db.filter (matchesQuery (buildQueryObject u q.search q.status
        q.jobType)) = [] := List.length_eq_zero.mp (Nat.le_zero.mp hlen)
    rw [hnil]
    have hsort := (applySortChain_perm q.sort []).eq_nil
    rw [hsort]
    simp
  | succ p0 =>
    have hp1 : 1 ≤ p0 + 1 := Nat.succ_le_succ (Nat.zero_le p0)
    have hskipeq : (((p0 + 1 : Nat) : Int) - 1) * (l : Int) =
        ((((p0 + 1) - 1) * l : Nat) : Int) := by
      push_cast [Nat.cast_sub hp1]
      ring
    have hskip : ((((p0 + 1 : Nat) : Int)) - 1) * (l : Int) = (((p0 * l : Nat)) : Int) := by
      rw [hskipeq]
      norm_num
    rw [hskip]
    simp only [Int.toNat_natCast]
    have hdrop : (applySortChain q.sort (db.filter (matchesQuery
        (buildQueryObject u q.search q.status q.jobType)))).drop (p0 * l) = [] := by
      refine List.drop_eq_nil_of_le ?_
      rw [applySortChain_length]
      simpa using hlen
    rw [hdrop, List.take_nil]

/-- Witness for C10: page 5 over a three-record store returns an empty page
with the full counts. -/
theorem C10_page_beyond_last_witness :
    (getAllJobs scenarioDb "u" { page := some "5" }).jobs = [] ∧
    (getAllJobs scenarioDb "u" { page := some "5" }).totalJobs =
      (scenarioDb.filter (matchesQuery (buildQueryObject "u" none none none))).length ∧
    (getAllJobs scenarioDb "u" { page := some "5" }).numOfPages =
      jsCeilDiv (scenarioDb.filter (matchesQuery
        (buildQueryObject "u" none none none))).length ((10 : Nat) : Int) :=
  C10_page_beyond_last scenarioDb "u" { page := some "5" } 5 10
    (by decide) (by decide) (by decide)

theorem charListLe_total : ∀ x y : List Char,
    charListLe x y = true ∨ charListLe y x = true
  | [], _ => Or.inl rfl
  | _ :: _, [] => Or.inr rfl
  | a :: as, b :: bs => by
    unfold charListLe
    by_cases h1 : a.toNat < b.toNat
    · left
      simp [h1]
    · by_cases h2 : b.toNat < a.toNat
      · right
        simp [h1, h2]
      · have hrec := charListLe_total as bs
        simp only [h1, h2, if_false, if_true, ite_false, ite_true]
        simpa [h1, h2] using hrec

theorem charListLe_trans : ∀ x y z : List Char,
    charListLe x y = true → charListLe y z = true → charListLe x z = true
  | [], _, _, _, _ => rfl
  | _ :: _, [], _, h, _ => by cases h
  | _ :: _, _ :: _, [], _, h2 => by cases h2
  | a :: as, b :: bs, c :: cs, h1, h2 => by
    unfold charListLe at h1 h2 ⊢
    by_cases hac : a.toNat < c.toNat
    · simp [hac]
    · by_cases hca : c.toNat < a.toNat
      · exfalso
        by_cases hab : a.toNat < b.toNat <;> by_cases hba : b.toNat < a.toNat <;>
          by_cases hbc : b.toNat < c.toNat <;> by_cases hcb : c.toNat < b.toNat <;>
          simp_all <;> omega
      · have hab : ¬a.toNat < b.toNat := by
          by_contra hab
          simp only [hab, if_true, ite_true] at h1
          by_cases hbc : b.toNat < c.toNat <;> by_cases hcb : c.toNat < b.toNat <;>
            simp_all <;> omega
        have hba : ¬b.toNat < a.toNat := by
          intro hba
          simp [hab, hba] at h1
        have hbc : ¬b.toNat < c.toNat := by omega
        have hcb : ¬c.toNat < b.toNat := by omega
        simp only [hab, hba, hbc, hcb, if_false, ite_false] at h1 h2
        simp only [hac, hca, if_false, ite_false]
        exact charListLe_trans as bs cs h1 h2

instance : IsTotal Job latestRel :=
  ⟨fun a b => by unfold latestRel tsLe; omega⟩

instance : IsTrans Job latestRel :=
  ⟨fun a b c hab hbc => by unfold latestRel tsLe at hab hbc ⊢; omega⟩

instance : IsTotal Job oldestRel :=
  ⟨fun a b => by unfold oldestRel tsLe; omega⟩

instance : IsTrans Job oldestRel :=
  ⟨fun a b c hab hbc => by unfold oldestRel tsLe at hab hbc ⊢; omega⟩

instance : IsTotal Job azRel :=
  ⟨fun a b => charListLe_total a.position.toList b.position.toList⟩

instance : IsTrans Job azRel :=
  ⟨fun a b c hab hbc => charListLe_trans _ _ _ hab hbc⟩

instance : IsTotal Job zaRel :=
  ⟨fun a b => charListLe_total b.position.toList a.position.toList⟩

instance : IsTrans Job zaRel :=
  ⟨fun a b c hab hbc => charListLe_trans _ _ _ hbc hab⟩

theorem applySortChain_id {s : Option String} (l : List Job)
    (h1 : s ≠ some "latest") (h2 : s ≠ some "oldest") (h3 : s ≠ some "a-z")
    (h4 : s ≠ some "z-a") : applySortChain s l = l := by
  simp [applySortChain, h1, h2, h3, h4]

/-- Claim C8: the recognized sort literals order the page of results by the
corresponding key and direction; any other or absent sort value applies no
sort clause, so the page is taken from the filtered list in store order; and
the spec's scenario — sort z-a over positions Engineer/Analyst/Director —
yields Engineer, Director, Analyst. -/
theorem C8_sort_mapping :
    ∀ (db : List Job) (u : UserId) (q : JobQueryParams),
      (q.sort = some "latest" → (getAllJobs db u q).jobs.Pairwise latestRel) ∧
      (q.sort = some "oldest" → (getAllJobs db u q).jobs.Pairwise oldestRel) ∧
      (q.sort = some "a-z" → (getAllJobs db u q).jobs.Pairwise azRel) ∧
      (q.sort = some "z-a" → (getAllJobs db u q).jobs.Pairwise zaRel) ∧
      (q.sort ≠ some "latest" → q.sort ≠ some "oldest" → q.sort ≠ some "a-z" →
        q.sort ≠ some "z-a" →
        (getAllJobs db u q).jobs =
          ((db.filter (matchesQuery (buildQueryObject u q.search q.status
            q.jobType))).drop ((parsePage q.page - 1) * parseLimit q.limit).toNat).take
            (parseLimit q.limit).toNat) ∧
      ((getAllJobs scenarioDb "u" { sort := some "z-a" }).jobs.map Job.position =
        ["Engineer", "Director", "Analyst"]) := by
  intro db u q
  refine ⟨?_, ?_, ?_, ?_, ?_, by decide⟩
  · intro h
    unfold getAllJobs
    dsimp only
    rw [h]
    refine List.Pairwise.sublist ((List.take_sublist _ _).trans (List.drop_sublist _ _)) ?_
    exact List.sorted_insertionSort latestRel _
  · intro h
    unfold getAllJobs
    dsimp only
    rw [h]
    refine List.Pairwise.sublist ((List.take_sublist _ _).trans (List.drop_sublist _ _)) ?_
    exact List.sorted_insertionSort oldestRel _
  · intro h
    unfold getAllJobs
    dsimp only
    rw [h]
    refine List.Pairwise.sublist ((List.take_sublist _ _).trans (List.drop_sublist _ _)) ?_
    exact List.sorted_insertionSort azRel _
  · intro h
    unfold getAllJobs
    dsimp only
    rw [h]
    refine List.Pairwise.sublist ((List.take_sublist _ _).trans (List.drop_sublist _ _)) ?_
    exact List.sorted_insertionSort zaRel _
  · intro h1 h2 h3 h4
    unfold getAllJobs
    dsimp only
    rw [applySortChain_id _ h1 h2 h3 h4]

/-- Witness for C8: the z-a sort on the scenario store is pairwise descending
by position. -/
theorem C8_sort_mapping_witness :
    (getAllJobs scenarioDb "u" { sort := some "z-a" }).jobs.Pairwise zaRel :=
  (C8_sort_mapping scenarioDb "u" { sort := some "z-a" }).2.2.2.1 rfl

theorem containsSub_iff (needle : List Char) :
    ∀ hay : List Char, containsSub needle hay = true ↔ List.IsInfix needle hay := by
  intro hay
  induction hay with
  | nil =>
    simp [containsSub, List.isEmpty_iff, List.infix_nil]
  | cons c rest ih =>
    simp [containsSub, List.infix_cons_iff, List.isPrefixOf_iff_prefix, ih]

theorem buildQueryObject_position_none (u : UserId) (st jt : Option String) :
    (buildQueryObject u none st jt).position = none := by
  unfold buildQueryObject
  dsimp only
  split_ifs <;> rfl

theorem buildQueryObject_search {u : UserId} {st jt : Option String} {s : String}
    (hs : s ≠ "") :
    buildQueryObject u (some s) st jt =
      { buildQueryObject u none st jt with position := some s } := by
  unfold buildQueryObject
  dsimp only
  have ht : jsTruthy (some s) = true := by simp [jsTruthy, hs]
  rw [ht]
  simp only [jsTruthy, Bool.false_and, if_false]
  split_ifs <;> rfl

/-- Claim C9: when search is present as a non-empty string, every job in the
returned page has the search string as a case-insensitive substring of its
position, and the filter predicate with search equals exactly the predicate
without search conjoined with case-insensitive substring containment of the
search string in the position. -/
theorem C9_search_substring :
    ∀ (db : List Job) (u : UserId) (q : JobQueryParams) (s : String),
      q.search = some s → s ≠ "" →
      (∀ x ∈ (getAllJobs db u q).jobs,
        List.IsInfix (s.toList.map Char.toLower) (x.position.toList.map Char.toLower)) ∧
      (∀ x : Job,
        matchesQuery (buildQueryObject u q.search q.status q.jobType) x = true ↔
          (matchesQuery (buildQueryObject u none q.status q.jobType) x = true ∧
            List.IsInfix (s.toList.map Char.toLower)
              (x.position.toList.map Char.toLower))) := by
  intro db u q s hq hs
  have hiff : ∀ x : Job,
      matchesQuery (buildQueryObject u q.search q.status q.jobType) x = true ↔
        (matchesQuery (buildQueryObject u none q.status q.jobType) x = true ∧
          List.IsInfix (s.toList.map Char.toLower)
            (x.position.toList.map Char.toLower)) := by
    intro x
    rw [hq, buildQueryObject_search hs]
    unfold matchesQuery
    dsimp only
    rw [buildQueryObject_position_none]
    dsimp only
    rw [← containsSub_iff]
    unfold ciContains
    simp only [Bool.and_eq_true, Bool.and_true]
    tauto
  refine ⟨?_, hiff⟩
  intro x hx
  exact ((hiff x).mp (mem_getAllJobs hx).2).2

/-- Witness for C9: the search string GIN case-insensitively matches the
position Engineer in the returned page. -/
theorem C9_search_substring_witness :
    List.IsInfix ("GIN".toList.map Char.toLower)
      ((mkSample "1" "u" "Engineer" "pending" 2024 1 0).position.toList.map
        Char.toLower) :=
  (C9_search_substring scenarioDb "u" { search := some "GIN" } "GIN" rfl
    (by decide)).1 (mkSample "1" "u" "Engineer" "pending" 2024 1 0) (by decide)

/-- Strict chronological order on (year, month) keys. -/
def monthLt (a b : Nat × Nat) : Prop := a.1 < b.1 ∨ (a.1 = b.1 ∧ a.2 < b.2)

instance : IsTotal ((Nat × Nat) × Nat) monthDescRel :=
  ⟨fun a b => by unfold monthDescRel; omega⟩

instance : IsTrans ((Nat × Nat) × Nat) monthDescRel :=
  ⟨fun a b c hab hbc => by unfold monthDescRel at hab hbc ⊢; omega⟩

theorem mem_groupCounts {κ : Type} [DecidableEq κ] {key : Job → κ}
    {l : List Job} {g : κ × Nat} (h : g ∈ groupCounts key l) :
    g.1 ∈ l.map key ∧
      g.2 = (l.filter (fun j => decide (key j = g.1))).length := by
  unfold groupCounts at h
  obtain ⟨k, hk, rfl⟩ := List.mem_map.mp h
  exact ⟨List.mem_dedup.mp hk, rfl⟩

theorem groupCounts_count_pos {κ : Type} [DecidableEq κ] {key : Job → κ}
    {l : List Job} {g : κ × Nat} (h : g ∈ groupCounts key l) : 0 < g.2 := by
  obtain ⟨hmem, hcount⟩ := mem_groupCounts h
  obtain ⟨j, hj, hkey⟩ := List.mem_map.mp hmem
  have hjf : j ∈ l.filter (fun j => decide (key j = g.1)) :=
    List.mem_filter.mpr ⟨hj, by simp [hkey]⟩
  rw [hcount]
  exact List.length_pos.mpr (List.ne_nil_of_mem hjf)

theorem groupCounts_keys {κ : Type} [DecidableEq κ] (key : Job → κ)
    (l : List Job) :
    (groupCounts key l).map Prod.fst = (l.map key).dedup := by
  unfold groupCounts
  rw [List.map_map]
  exact List.map_id _

theorem monthGroupsSorted_perm (db : List Job) (u : UserId) :
    (monthGroupsSorted db u).Perm (monthGroups db u) :=
  List.perm_insertionSort monthDescRel _

theorem monthDesc_strict {g h : (Nat × Nat) × Nat} (h1 : monthDescRel g h)
    (h2 : g.1 ≠ h.1) : monthLt h.1 g.1 := by
  unfold monthDescRel at h1
  unfold monthLt
  rcases g with ⟨⟨gy, gm⟩, gc⟩
  rcases h with ⟨⟨hy, hm⟩, hc⟩
  simp only at h1 ⊢
  by_cases e : gy = hy
  · subst e
    have : gm ≠ hm := by
      intro e2
      exact h2 (by simp [e2])
    omega
  · omega

theorem monthGroupsSorted_strict (db : List Job) (u : UserId) :
    (monthGroupsSorted db u).Pairwise (fun g h' => monthLt h'.1 g.1) := by
  have hsorted : (monthGroupsSorted db u).Pairwise monthDescRel :=
    List.sorted_insertionSort monthDescRel (monthGroups db u)
  have hnodup : ((monthGroupsSorted db u).map Prod.fst).Nodup := by
    refine (((monthGroupsSorted_perm db u).map Prod.fst).nodup_iff).mpr ?_
    unfold monthGroups
    rw [groupCounts_keys]
    exact List.nodup_dedup _
  have hne : (monthGroupsSorted db u).Pairwise (fun g h' => g.1 ≠ h'.1) :=
    List.pairwise_map.mp hnodup
  exact (hsorted.and hne).imp (fun h => monthDesc_strict h.1 h.2)

/-- Claim C6: `monthlyApplications` is the caller's records grouped by
(creation year, creation month), each group's count positive and equal to the
number of the caller's records in that month, restricted to the six most
recent groups (every omitted group is strictly older than every kept one),
presented in strictly ascending chronological order, each entry relabelled by
`mkMonthlyEntry`, whose date label is a function only of the group's month
number and year. -/
theorem C6_monthly_series :
    ∀ (db : List Job) (u : UserId),
      (showStats db u).monthlyApplications =
        ((monthlyTop db u).reverse).map mkMonthlyEntry ∧
      (showStats db u).monthlyApplications.length ≤ 6 ∧
      (∀ g ∈ monthlyTop db u,
        g.2 = ((ownedJobs db u).filter (fun j => decide (monthKey j = g.1))).length ∧
        0 < g.2) ∧
      List.Pairwise (fun g h' => monthLt g.1 h'.1) ((monthlyTop db u).reverse) ∧
      (∀ g ∈ monthGroups db u, g ∉ monthlyTop db u →
        ∀ h' ∈ monthlyTop db u, monthLt g.1 h'.1) := by
  intro db u
  have htopmem : ∀ {g}, g ∈ monthlyTop db u → g ∈ monthGroups db u := by
    intro g hg
    exact (monthGroupsSorted_perm db u).subset ((List.take_sublist _ _).subset hg)
  refine ⟨?_, ?_, ?_, ?_, ?_⟩
  · simp [showStats, List.map_reverse]
  · simp only [showStats, List.length_reverse, List.length_map]
    exact List.length_take_le 6 _
  · intro g hg
    have hmem := htopmem hg
    exact ⟨(mem_groupCounts hmem).2, groupCounts_count_pos hmem⟩
  · rw [List.pairwise_reverse]
    exact List.Pairwise.sublist (List.take_sublist 6 _) (monthGroupsSorted_strict db u)
  · intro g hg hgtop h' htop
    have hgs : g ∈ monthGroupsSorted db u := (monthGroupsSorted_perm db u).mem_iff.mpr hg
    have hsplit := List.take_append_drop 6 (monthGroupsSorted db u)
    have hpair := monthGroupsSorted_strict db u
    rw [← hsplit] at hpair
    have hdrop : g ∈ (monthGroupsSorted db u).drop 6 := by
      rcases List.mem_append.mp (hsplit ▸ hgs) with h | h
      · exact absurd h hgtop
      · exact h
    exact (List.pairwise_append.mp hpair).2.2 h' htop g hdrop

/-- Witness for C6 over a seven-month store: the omitted oldest group
(January 2023) is strictly before the kept group (February 2023). -/
theorem C6_monthly_series_witness :
    monthLt ((2023, 1) : Nat × Nat) ((2023, 2) : Nat × Nat) :=
  (C6_monthly_series sevenMonthDb "A").2.2.2.2 ((2023, 1), 1) (by decide)
    (by decide) ((2023, 2), 1) (by decide)

end Jobster
